import Mathlib

/-!
Verification of the editor pipeline of `helio_tools`
(`helio_tools/_src/editors/editors.py`, `calibration.py`, `scale.py`).

The numeric pipeline is embedded shallowly: numpy arrays become (nested)
lists of values, machine floats become exact rationals extended with the
IEEE specials (NaN and the two infinities) where the code can produce
them, and the outcomes of the random draws (`random.random`, `randint`)
are explicit parameters.  External collaborators (scipy's
`gaussian_filter`, sunpy's `rotate` and the world-coordinate `submap`,
aiapy's degradation correction) are abstract function parameters; the
pixel-coordinate `submap` is modelled concretely from sunpy's documented
semantics (corners in `(x, y)` order, both corners included, the slice
truncated at the array bounds like a Python slice).
-/

namespace HelioTools

/-- Scalar values as the numpy code manipulates them: finite floats are
modelled as exact rationals, and the IEEE specials NaN, `+inf` and `-inf`
are separate constructors.  Rounding of `float32`/`float64` is not
modelled: arithmetic on finite values is exact. -/
inductive FV where
  | nan : FV
  | pinf : FV
  | ninf : FV
  | fin (q : ℚ) : FV
  deriving DecidableEq, Repr

/-- IEEE division of a finite value by a finite value: division by zero
gives NaN for a zero numerator and a signed infinity otherwise. -/
def qdivF (a b : ℚ) : FV :=
  if b = 0 then (if a = 0 then FV.nan else if 0 < a then FV.pinf else FV.ninf)
  else FV.fin (a / b)

/-- IEEE division of an arbitrary value by a finite value. -/
def FV.divq : FV → ℚ → FV
  | FV.nan, _ => FV.nan
  | FV.pinf, b => if 0 ≤ b then FV.pinf else FV.ninf
  | FV.ninf, b => if 0 ≤ b then FV.ninf else FV.pinf
  | FV.fin a, b => qdivF a b

/-- IEEE multiplication by a finite scalar. -/
def FV.mulq : FV → ℚ → FV
  | FV.nan, _ => FV.nan
  | FV.pinf, c => if 0 < c then FV.pinf else if c < 0 then FV.ninf else FV.nan
  | FV.ninf, c => if 0 < c then FV.ninf else if c < 0 then FV.pinf else FV.nan
  | FV.fin a, c => FV.fin (a * c)

/-- IEEE subtraction of a finite scalar. -/
def FV.subq : FV → ℚ → FV
  | FV.nan, _ => FV.nan
  | FV.pinf, _ => FV.pinf
  | FV.ninf, _ => FV.ninf
  | FV.fin a, c => FV.fin (a - c)

/-- `np.clip(v, lo, hi)`, i.e. `minimum(hi, maximum(v, lo))`: NaN passes
through, infinities land on the bounds. -/
def FV.clip : FV → ℚ → ℚ → FV
  | FV.nan, _, _ => FV.nan
  | FV.pinf, _, hi => FV.fin hi
  | FV.ninf, lo, hi => FV.fin (min hi lo)
  | FV.fin a, lo, hi => FV.fin (min hi (max a lo))

/-- The largest double, which `np.nan_to_num` substitutes for `+inf`. -/
def floatMax : ℚ := (17976931348623157 : ℚ) * 10 ^ 292

/-- `np.nan_to_num`: NaN becomes 0, infinities the extreme doubles. -/
def nanToNum : FV → ℚ
  | FV.nan => 0
  | FV.pinf => floatMax
  | FV.ninf => -floatMax
  | FV.fin q => q

/-- Insert into an ascending list (helper for the numpy sort). -/
def insertAsc (x : ℚ) : List ℚ → List ℚ
  | [] => [x]
  | y :: ys => if x ≤ y then x :: y :: ys else y :: insertAsc x ys

/-- Ascending insertion sort, the order `np.quantile` sorts by. -/
def sortAsc : List ℚ → List ℚ
  | [] => []
  | x :: xs => insertAsc x (sortAsc xs)

/-- `np.quantile(l, q)` with the default linear interpolation, for
`0 ≤ q ≤ 1`: the virtual index is `q * (n - 1)` and the value is
interpolated between the two neighbouring order statistics. -/
def npQuantile (l : List ℚ) (q : ℚ) : ℚ :=
  let s := sortAsc l
  let n := s.length
  let h : ℚ := q * ((n : ℚ) - 1)
  let i : ℤ := Int.floor h
  let lo := s.getD i.toNat 0
  let hi := s.getD (min (i.toNat + 1) (n - 1)) 0
  lo + (h - (i : ℚ)) * (hi - lo)

/-- `MinMaxQuantileNormalizeEditor.call` (editors.py, lines 52-59): take
the 0.001 and 0.999 quantiles, rescale linearly to `[-1, 1]` and clip.
The arithmetic is the source expression
`(data - vmin) / (vmax - vmin) * 2 - 1` under IEEE semantics, so a zero
quantile gap produces NaN / infinities before the clip. -/
def MinMaxQuantileNormalizeEditor_call (data : List ℚ) : List FV :=
  let vmin := npQuantile data (1 / 1000)
  let vmax := npQuantile data (999 / 1000)
  data.map fun x => (((qdivF (x - vmin) (vmax - vmin)).mulq 2).subq 1).clip (-1) 1

/-- Header fields of a sunpy map that the editors read or write, plus the
pixel data.  `cdelt1` doubles as `scale[0].value` (arcsec per pixel) and
`rsun_obs` as `rsun_obs.value`. -/
structure SMap where
  data : List (List FV)
  cdelt1 : ℚ
  rsun_obs : ℚ
  r_sun : ℚ
  exptime : ℚ
  wavelnth : ℕ
  date : ℤ
  deriving DecidableEq, Repr

/-- First position of the minimum of `|d - date|` over the table dates:
`correction_table["DATE"].sub(date).abs().idxmin()`. -/
def idxminAbs (dates : List ℤ) (date : ℤ) : ℕ :=
  (List.range dates.length).foldl
    (fun best i =>
      if |dates.getD i 0 - date| < |dates.getD best 0 - date| then i else best) 0

/-- The message built by the unrecognized-method branch of
`correct_degregation` (calibration.py, lines 117-119); the two string
pieces are concatenated exactly as in the source (no separating space). -/
def unrecognizedMsg (method : Option String) : String :=
  "Unrecognized method" ++ ("Must be 'auto' or 'aiapy'. User input: " ++
    match method with
    | Option.none => "None"
    | Option.some s => s)

/-- The method dispatch of `correct_degregation` (calibration.py, lines
103-119).  The auto calibration table is a list of (date, wavelength ↦
factor) rows; the aiapy strategy is an abstract collaborator.  The
dispatch compares against the strings "auto" and "aiapy" and against the
null value `none` (Python `None`); anything else raises `ValueError`,
modelled as `Except.error`. -/
def correct_degregation_branch (autoTable : List (ℤ × (ℕ → ℚ))) (aiapyCorrect : SMap → SMap)
    (s_map : SMap) (method : Option String) : Except String SMap :=
  if method = Option.some "auto" then
    let index := idxminAbs (autoTable.map Prod.fst) s_map.date
    let factor := (autoTable.getD index (0, fun _ => 1)).2 s_map.wavelnth
    Except.ok { s_map with data := s_map.data.map (List.map (fun v => FV.divq v factor)) }
  else if method = Option.some "aiapy" then
    Except.ok (aiapyCorrect s_map)
  else if method = Option.none then
    Except.ok s_map
  else
    Except.error (unrecognizedMsg method)

/-- The whole of `correct_degregation`: the dispatch above, then —
unconditionally, on whichever map the dispatch produced — NaN → 0,
division by the exposure-time header value and the float32 cast
(calibration.py, lines 121-124). -/
def correct_degregation (autoTable : List (ℤ × (ℕ → ℚ))) (aiapyCorrect : SMap → SMap)
    (s_map : SMap) (method : Option String) : Except String SMap :=
  match correct_degregation_branch autoTable aiapyCorrect s_map method with
  | Except.error e => Except.error e
  | Except.ok m =>
      Except.ok { m with data := m.data.map (List.map fun v => qdivF (nanToNum v) m.exptime) }

/-- Whether the character list `pat` stands at the head of `s`. -/
def leadsWith : List Char → List Char → Bool
  | [], _ => true
  | _ :: _, [] => false
  | a :: as, b :: bs => a == b && leadsWith as bs

/-- Whether the character list `pat` occurs contiguously inside `s`. -/
def occursIn (pat : List Char) : List Char → Bool
  | [] => leadsWith pat []
  | c :: rest => leadsWith pat (c :: rest) || occursIn pat rest

/-- The result a concrete editor's `call` hands back to `Editor.convert`:
either a bare data value or a pair of a data value and additions to the
keyword side channel (a partial map, some-valued on the added keys). -/
inductive CallResult (D K V : Type) where
  | plain (d : D)
  | tup (d : D) (adds : K → Option V)

/-- `Editor.convert` (editors.py, lines 26-33): run `call`; a tuple result
merges its additions into the keyword mapping (`kwargs.update`: an added
key wins, the others keep their value), a bare result leaves the mapping
unchanged; return the pair. -/
def Editor_convert {D K V : Type} (call : D → (K → Option V) → CallResult D K V)
    (data : D) (kwargs : K → Option V) : D × (K → Option V) :=
  match call data kwargs with
  | CallResult.plain d => (d, kwargs)
  | CallResult.tup d adds =>
      (d, fun k => match adds k with | Option.some v => Option.some v | Option.none => kwargs k)

instance {ε α : Type} [DecidableEq ε] [DecidableEq α] : DecidableEq (Except ε α) := by
  intro a b
  cases a with
  | error e =>
    cases b with
    | error f => exact decidable_of_iff (e = f) (by constructor <;> (intro h; simp_all))
    | ok y => exact Decidable.isFalse (by simp)
  | ok x =>
    cases b with
    | error f => exact Decidable.isFalse (by simp)
    | ok y => exact decidable_of_iff (x = y) (by constructor <;> (intro h; simp_all))

/-- A concrete map used by witnesses and counterexamples. -/
def mapA : SMap :=
  { data := [[FV.fin 3]], cdelt1 := 1, rsun_obs := 1, r_sun := 1,
    exptime := 1, wavelnth := 171, date := 0 }

/-- A Python slice bound for a list of length `n`: a negative index counts
from the end (clamped at 0), a nonnegative one is clamped at `n`. -/
def pyBound (n : ℕ) (i : ℤ) : ℕ :=
  if i < 0 then (i + n).toNat else min i.toNat n

/-- `l[a:b]` with Python / numpy basic-slice semantics: out-of-range
bounds truncate silently. -/
def pySlice {α : Type} (l : List α) (a b : ℤ) : List α :=
  (l.drop (pyBound l.length a)).take (pyBound l.length b - pyBound l.length a)

/-- A rectangular 2-D array: `r` rows of `c` entries each. -/
def Rect2 {α : Type} (m : List (List α)) (r c : ℕ) : Prop :=
  m.length = r ∧ ∀ row ∈ m, row.length = c

/-- `np.nan_to_num(data).astype(np.float32)` over a 2-D array (the cast is
value-preserving in this model). -/
def nanToNumData (d : List (List FV)) : List (List FV) :=
  d.map (List.map fun v => FV.fin (nanToNum v))

/-- No entry of the 2-D array is NaN. -/
def NanFree (d : List (List FV)) : Prop :=
  ∀ row ∈ d, ∀ v ∈ row, v ≠ FV.nan

/-- Modelled from sunpy `Map.submap` with pixel-unit corners: corners are
`(x, y)` pairs with x along columns, both corners are included, and the
underlying numpy slice truncates at the array bounds.  Header fields
other than the data are unchanged (the fields this pipeline later reads —
`cdelt1`, `rsun_obs` — are indeed untouched by a pixel crop). -/
def submapPix (bl tr : ℤ × ℤ) (m : SMap) : SMap :=
  { m with data := (pySlice m.data bl.2 (tr.2 + 1)).map fun row => pySlice row bl.1 (tr.1 + 1) }

/-- `_crop_resolution` (scale.py, lines 93-127): first the arcsecond
submap (an abstract world-coordinate collaborator, applied to the frame
half-width in arcsec), then the pixel-exact submap built from the data
shape.  `pad_x` is computed from `shape[0]` (rows) and `pad_y` from
`shape[1]` (columns), and they are passed to the pixel submap in `(x, y)`
order, exactly as in the source. -/
def _crop_resolution (submapArc : ℚ → SMap → SMap) (resolution : ℕ) (s_map : SMap) : SMap :=
  let arcs_frame := ((resolution : ℚ) / 2) * s_map.cdelt1
  let m := submapArc arcs_frame s_map
  let pad_x : ℤ := (m.data.length : ℤ) - (resolution : ℤ)
  let pad_y : ℤ := ((m.data.getD 0 []).length : ℤ) - (resolution : ℤ)
  submapPix (Int.fdiv pad_x 2, Int.fdiv pad_y 2)
    (Int.fdiv pad_x 2 + (resolution : ℤ) - 1, Int.fdiv pad_y 2 + (resolution : ℤ) - 1) m

/-- `normalize_radius` (scale.py, lines 54-91): scale factor from the
padded observed solar radius in pixels, NaN → 0 and cast, the abstract
rotate/rescale collaborator, the optional crop, and the `r_sun` header
update from the (possibly new) `rsun_obs` and `cdelt1`. -/
def normalize_radius (rotate : ℚ → SMap → SMap) (submapArc : ℚ → SMap → SMap)
    (resolution : ℕ) (padding_factor : ℚ) (crop : Bool) (s_map : SMap) : SMap :=
  let r_obs_pix := s_map.rsun_obs / s_map.cdelt1
  let r_obs_pix2 := (1 + padding_factor) * r_obs_pix
  let scale_factor := (resolution : ℚ) / (2 * r_obs_pix2)
  let m0 := { s_map with data := nanToNumData s_map.data }
  let m1 := rotate scale_factor m0
  let m2 := if crop then _crop_resolution submapArc resolution m1 else m1
  { m2 with r_sun := m2.rsun_obs / m2.cdelt1 }

/-- `NormalizeRadiusEditor.call` (editors.py, lines 326-350): the same
pipeline with the crop steps written inline, transcribed separately from
its own source lines. -/
def NormalizeRadiusEditor_call (rotate : ℚ → SMap → SMap) (submapArc : ℚ → SMap → SMap)
    (resolution : ℕ) (padding_factor : ℚ) (crop : Bool) (s_map : SMap) : SMap :=
  let r_obs_pix := s_map.rsun_obs / s_map.cdelt1
  let r_obs_pix2 := (1 + padding_factor) * r_obs_pix
  let scale_factor := (resolution : ℚ) / (2 * r_obs_pix2)
  let m0 := { s_map with data := nanToNumData s_map.data }
  let m1 := rotate scale_factor m0
  let m2 :=
    if crop then
      let arcs_frame := ((resolution : ℚ) / 2) * m1.cdelt1
      let m := submapArc arcs_frame m1
      let pad_x : ℤ := (m.data.length : ℤ) - (resolution : ℤ)
      let pad_y : ℤ := ((m.data.getD 0 []).length : ℤ) - (resolution : ℤ)
      submapPix (Int.fdiv pad_x 2, Int.fdiv pad_y 2)
        (Int.fdiv pad_x 2 + (resolution : ℤ) - 1, Int.fdiv pad_y 2 + (resolution : ℤ) - 1) m
    else m1
  { m2 with r_sun := m2.rsun_obs / m2.cdelt1 }

/-- A concrete 3 × 3 map (square data). -/
def mapB : SMap :=
  { data := [[FV.fin 1, FV.fin 2, FV.fin 3],
             [FV.fin 4, FV.fin 5, FV.fin 6],
             [FV.fin 7, FV.fin 8, FV.fin 9]],
    cdelt1 := 1, rsun_obs := 1, r_sun := 1, exptime := 1, wavelnth := 171, date := 0 }

/-- A concrete 4 × 2 map (more rows than columns, both at least 2). -/
def mapC : SMap :=
  { data := [[FV.fin 1, FV.fin 2], [FV.fin 3, FV.fin 4],
             [FV.fin 5, FV.fin 6], [FV.fin 7, FV.fin 8]],
    cdelt1 := 1, rsun_obs := 1, r_sun := 1, exptime := 1, wavelnth := 171, date := 0 }

/-- A concrete map with a NaN pixel and a zero exposure time. -/
def mapN : SMap :=
  { data := [[FV.nan]], cdelt1 := 1, rsun_obs := 1, r_sun := 1,
    exptime := 0, wavelnth := 171, date := 0 }

/-- The outcomes of the random draws one patch-editor call consumes:
`r` is the `random.random()` outcome (a uniform draw from `[0, 1)`),
`rx` and `ry` the `randint` offsets of the random branch, `tie` the
`randint` tie-break index of the extremum branch. -/
structure PatchDraws where
  r : ℚ
  rx : ℕ
  ry : ℕ
  tie : ℕ

/-- `data.shape[1]` of a 3-D array modelled as a list of channels (rows
of the first channel). -/
def shape1 (data : List (List (List ℚ))) : ℕ := (data.getD 0 []).length

/-- `data.shape[2]` (columns of the first row of the first channel). -/
def shape2 (data : List (List (List ℚ))) : ℕ := ((data.getD 0 []).getD 0 []).length

/-- `data[:, x0:x1, y0:y1]`: every channel, the given row and column
slices with Python semantics. -/
def slice3 (data : List (List (List ℚ))) (x0 x1 y0 y1 : ℤ) : List (List (List ℚ)) :=
  data.map fun ch => (pySlice ch x0 x1).map fun row => pySlice row y0 y1

/-- Maximum of a nonempty list (0 as a junk value for the empty list). -/
def listMax : List ℚ → ℚ
  | [] => 0
  | x :: xs => xs.foldl max x

/-- Minimum of a nonempty list (0 as a junk value for the empty list). -/
def listMin : List ℚ → ℚ
  | [] => 0
  | x :: xs => xs.foldl min x

/-- `np.nanmax` over a 2-D array; the model's data carries no NaNs, so
this is the plain maximum. -/
def nanmax (m : List (List ℚ)) : ℚ := listMax m.flatten

/-- `np.nanmin` over a 2-D array. -/
def nanmin (m : List (List ℚ)) : ℚ := listMin m.flatten

/-- The row-`i0` part of `np.argwhere(m == v)`, scanning a row from
column `j0`. -/
def argRow (v : ℚ) (i0 j0 : ℕ) : List ℚ → List (ℕ × ℕ)
  | [] => []
  | x :: xs => (if x = v then [(i0, j0)] else []) ++ argRow v i0 (j0 + 1) xs

/-- `np.argwhere(m == v)` from row `i0` on. -/
def argRows (v : ℚ) (i0 : ℕ) : List (List ℚ) → List (ℕ × ℕ)
  | [] => []
  | r :: rs => argRow v i0 0 r ++ argRows v (i0 + 1) rs

/-- `np.argwhere(m == v)`: the row-major list of positions of `m` whose
entry equals `v`. -/
def argwhereEq (m : List (List ℚ)) (v : ℚ) : List (ℕ × ℕ) := argRows v 0 m

/-- The flattened entries of a 3-D patch. -/
def flat3 (p : List (List (List ℚ))) : List ℚ := (p.map List.flatten).flatten

/-- `np.mean` of a flat list. -/
def npMean (l : List ℚ) : ℚ := l.sum / (l.length : ℚ)

/-- Whether all entries of the list are equal (and the list nonempty):
for a nonempty list this is `np.std(l) == 0`.  numpy's std of an empty
array is NaN and `NaN != 0` holds, so an empty patch passes the source's
assertion, matching `false` here. -/
def isConstant : List ℚ → Bool
  | [] => false
  | x :: xs => xs.all fun y => y == x

/-- The `'Invalid data shape: %s' % str(data.shape)` message (the shape
triple is printed with `toString` instead of Python's `str`). -/
def patchShapeMsg (data : List (List (List ℚ))) : String :=
  "Invalid data shape: " ++ toString (data.length, shape1 data, shape2 data)

/-- The `'Invalid patch found (all values %f)' % np.mean(patch)` message
(the mean is printed with `toString` instead of `%f`). -/
def invalidPatchMsg (patch : List (List (List ℚ))) : String :=
  "Invalid patch found (all values " ++ toString (npMean (flat3 patch)) ++ ")"

/-- The patch chosen by `BrightestPixelPatchEditor.call` (`useMax = true`,
editors.py lines 113-131) or `DarkestPixelPatchEditor.call`
(`useMax = false`, lines 162-180) — the two bodies are identical except
for `np.nanmax` versus `np.nanmin`.  If the uniform draw is at most
`random_selection`, a patch at the drawn offset; otherwise the channel
`idx` is smoothed (`scipy.ndimage.gaussian_filter(…, sigma=5)`, an
abstract shape-preserving collaborator), a position tied for the
smoothed extremum is drawn among `np.argwhere`'s row-major candidates,
its coordinates are clamped by `min` against `shape - patch_shape // 2`
and then by `max` against `patch_shape // 2`, and the patch is the slice
`x - floor(ps/2) : x + ceil(ps/2)` (likewise for y) of all channels. -/
def patchSelect (useMax : Bool) (smooth : List (List ℚ) → List (List ℚ))
    (ps : ℕ × ℕ) (idx : ℕ) (random_selection : ℚ) (d : PatchDraws)
    (data : List (List (List ℚ))) : List (List (List ℚ)) :=
  if d.r ≤ random_selection then
    slice3 data (d.rx : ℤ) ((d.rx : ℤ) + (ps.1 : ℤ)) (d.ry : ℤ) ((d.ry : ℤ) + (ps.2 : ℤ))
  else
    let smoothed := smooth (data.getD idx [])
    let v := if useMax then nanmax smoothed else nanmin smoothed
    let pos := argwhereEq smoothed v
    let p := pos.getD d.tie (0, 0)
    let x : ℤ := max (min (p.1 : ℤ) ((smoothed.length : ℤ) - (ps.1 : ℤ) / 2)) ((ps.1 : ℤ) / 2)
    let y : ℤ :=
      max (min (p.2 : ℤ) (((smoothed.getD 0 []).length : ℤ) - (ps.2 : ℤ) / 2)) ((ps.2 : ℤ) / 2)
    slice3 data (x - (ps.1 : ℤ) / 2) (x + ((ps.1 : ℤ) + 1) / 2)
      (y - (ps.2 : ℤ) / 2) (y + ((ps.2 : ℤ) + 1) / 2)

/-- The whole `call` of a patch editor: the two shape assertions, the
patch selection, and the zero-variance assertion (an `AssertionError` is
modelled as `Except.error`). -/
def patchCall (useMax : Bool) (smooth : List (List ℚ) → List (List ℚ))
    (ps : ℕ × ℕ) (idx : ℕ) (random_selection : ℚ) (d : PatchDraws)
    (data : List (List (List ℚ))) : Except String (List (List (List ℚ))) :=
  if shape1 data < ps.1 then Except.error (patchShapeMsg data)
  else if shape2 data < ps.2 then Except.error (patchShapeMsg data)
  else
    let patch := patchSelect useMax smooth ps idx random_selection d data
    if isConstant (flat3 patch) then Except.error (invalidPatchMsg patch)
    else Except.ok patch

/-- `BrightestPixelPatchEditor.call` (editors.py, lines 107-134). -/
def BrightestPixelPatchEditor_call (smooth : List (List ℚ) → List (List ℚ))
    (ps : ℕ × ℕ) (idx : ℕ) (random_selection : ℚ) (d : PatchDraws)
    (data : List (List (List ℚ))) : Except String (List (List (List ℚ))) :=
  patchCall true smooth ps idx random_selection d data

/-- `DarkestPixelPatchEditor.call` (editors.py, lines 156-183). -/
def DarkestPixelPatchEditor_call (smooth : List (List ℚ) → List (List ℚ))
    (ps : ℕ × ℕ) (idx : ℕ) (random_selection : ℚ) (d : PatchDraws)
    (data : List (List (List ℚ))) : Except String (List (List (List ℚ))) :=
  patchCall false smooth ps idx random_selection d data

/-- A concrete single-channel 3 × 3 array with a unique maximum at
position (2, 2) and a unique minimum at (0, 0). -/
def data9 : List (List (List ℚ)) := [[[1, 2, 3], [4, 5, 6], [7, 8, 9]]]

/-- A concrete single-channel constant-zero 4 × 4 array. -/
def zeros4 : List (List (List ℚ)) :=
  [[[0, 0, 0, 0], [0, 0, 0, 0], [0, 0, 0, 0], [0, 0, 0, 0]]]

/-- The clamp the extremum branch applies to one center coordinate:
`min` against `L - ps // 2`, then `max` against `ps // 2`. -/
def clampX (ps1 L i : ℕ) : ℤ :=
  max (min (i : ℤ) ((L : ℤ) - (ps1 : ℤ) / 2)) ((ps1 : ℤ) / 2)

/-- The random-branch result as the spec describes it: the patch at the
drawn offset across all channels, subject to the zero-variance check. -/
def randomResult (ps : ℕ × ℕ) (d : PatchDraws) (data : List (List (List ℚ))) :
    Except String (List (List (List ℚ))) :=
  let patch := slice3 data (d.rx : ℤ) ((d.rx : ℤ) + (ps.1 : ℤ)) (d.ry : ℤ) ((d.ry : ℤ) + (ps.2 : ℤ))
  if isConstant (flat3 patch) then Except.error (invalidPatchMsg patch) else Except.ok patch

/-- The extremum-branch result for the tied pixel `ij`: the patch
`x - floor(ps/2) : x + ceil(ps/2)` (likewise for y) around the clamped
center, subject to the zero-variance check. -/
def extremumResult (ps : ℕ × ℕ) (idx : ℕ) (ij : ℕ × ℕ)
    (smooth : List (List ℚ) → List (List ℚ)) (data : List (List (List ℚ))) :
    Except String (List (List (List ℚ))) :=
  let smoothed := smooth (data.getD idx [])
  let x := clampX ps.1 smoothed.length ij.1
  let y := clampX ps.2 (smoothed.getD 0 []).length ij.2
  let patch := slice3 data (x - (ps.1 : ℤ) / 2) (x + ((ps.1 : ℤ) + 1) / 2)
    (y - (ps.2 : ℤ) / 2) (y + ((ps.2 : ℤ) + 1) / 2)
  if isConstant (flat3 patch) then Except.error (invalidPatchMsg patch) else Except.ok patch

lemma leadsWith_append (p l1 l2 : List Char) (h : leadsWith p l1 = true) :
    leadsWith p (l1 ++ l2) = true := by
  induction p generalizing l1 with
  | nil => rfl
  | cons a as ih =>
    cases l1 with
    | nil => simp [leadsWith] at h
    | cons b bs =>
      simp only [leadsWith, Bool.and_eq_true] at h ⊢
      exact ⟨h.1, ih bs (by simpa using h.2)⟩

lemma occursIn_append_left (p l1 l2 : List Char) (h : occursIn p l1 = true) :
    occursIn p (l1 ++ l2) = true := by
  induction l1 with
  | nil =>
    cases p with
    | nil =>
      cases l2 with
      | nil => rfl
      | cons c cs => simp [occursIn, leadsWith]
    | cons a as => simp [occursIn, leadsWith] at h
  | cons c cs ih =>
    simp only [occursIn, Bool.or_eq_true] at h ⊢
    rcases h with h | h
    · exact Or.inl (leadsWith_append _ _ _ h)
    · exact Or.inr (ih h)

lemma occursIn_append_right (p l1 l2 : List Char) (h : occursIn p l2 = true) :
    occursIn p (l1 ++ l2) = true := by
  induction l1 with
  | nil => simpa using h
  | cons c cs ih =>
    simp only [List.cons_append, occursIn, Bool.or_eq_true]
    exact Or.inr ih

lemma pySlice_length {α : Type} (l : List α) (a b : ℤ)
    (h0 : 0 ≤ a) (hab : a ≤ b) (hb : b ≤ (l.length : ℤ)) :
    (pySlice l a b).length = (b - a).toNat := by
  have ha' : pyBound l.length a = a.toNat := by
    unfold pyBound
    rw [if_neg (by omega)]
    omega
  have hb' : pyBound l.length b = b.toNat := by
    unfold pyBound
    rw [if_neg (by omega)]
    omega
  unfold pySlice
  rw [ha', hb', List.length_take, List.length_drop]
  omega

lemma pySlice_subset {α : Type} (l : List α) (a b : ℤ) :
    ∀ x ∈ pySlice l a b, x ∈ l := by
  intro x hx
  unfold pySlice at hx
  exact List.mem_of_mem_drop (List.mem_of_mem_take hx)

lemma fdiv_two_bounds (p : ℤ) (hp : 0 ≤ p) :
    0 ≤ Int.fdiv p 2 ∧ Int.fdiv p 2 ≤ p := by
  rw [Int.fdiv_eq_ediv _ (by norm_num)]
  exact ⟨Int.ediv_nonneg hp (by norm_num), Int.ediv_le_self 2 hp⟩

/-- The pixel-exact crop of `_crop_resolution`, applied to a square map of
side `S ≥ res`, returns exactly `res × res` pixels. -/
lemma submap_crop_dims (m1 : SMap) (res S : ℕ)
    (h : Rect2 m1.data S S) (hres : res ≤ S) :
    Rect2 ((submapPix
        (Int.fdiv ((m1.data.length : ℤ) - (res : ℤ)) 2,
          Int.fdiv (((m1.data.getD 0 []).length : ℤ) - (res : ℤ)) 2)
        (Int.fdiv ((m1.data.length : ℤ) - (res : ℤ)) 2 + (res : ℤ) - 1,
          Int.fdiv (((m1.data.getD 0 []).length : ℤ) - (res : ℤ)) 2 + (res : ℤ) - 1)
        m1).data) res res := by
  obtain ⟨hlen, hrows⟩ := h
  have hcols : (m1.data.getD 0 []).length = S := by
    cases hd : m1.data with
    | nil =>
      rw [hd] at hlen
      simp at hlen
      simp [hd, ← hlen]
    | cons r rs =>
      have hmem : r ∈ m1.data := by
        rw [hd]
        exact List.mem_cons_self r rs
      have := hrows r hmem
      simp [hd, this]
  have hpadx : (m1.data.length : ℤ) - (res : ℤ) = (S : ℤ) - (res : ℤ) := by
    rw [hlen]
  have hpady : ((m1.data.getD 0 []).length : ℤ) - (res : ℤ) = (S : ℤ) - (res : ℤ) := by
    rw [hcols]
  obtain ⟨hd0, hdle⟩ := fdiv_two_bounds ((S : ℤ) - (res : ℤ)) (by omega)
  unfold submapPix
  rw [hpadx, hpady]
  constructor
  · rw [List.length_map]
    rw [pySlice_length m1.data _ _ hd0 (by omega) (by rw [hlen]; omega)]
    omega
  · intro row hrow
    simp only [List.mem_map] at hrow
    obtain ⟨row0, hrow0, rfl⟩ := hrow
    have hrow0' : row0 ∈ m1.data := pySlice_subset _ _ _ _ hrow0
    have hlen0 : row0.length = S := hrows row0 hrow0'
    rw [pySlice_length row0 _ _ hd0 (by omega) (by rw [hlen0]; omega)]
    omega

lemma nanFree_divExp (d : List (List FV)) (e : ℚ) (he : e ≠ 0) :
    NanFree (d.map (List.map fun v => qdivF (nanToNum v) e)) := by
  intro row hrow v hv
  simp only [List.mem_map] at hrow
  obtain ⟨r0, _, rfl⟩ := hrow
  simp only [List.mem_map] at hv
  obtain ⟨v0, _, rfl⟩ := hv
  simp [qdivF, he]

lemma nanFree_nanToNumData (d : List (List FV)) : NanFree (nanToNumData d) := by
  intro row hrow v hv
  simp only [nanToNumData, List.mem_map] at hrow
  obtain ⟨r0, _, rfl⟩ := hrow
  simp only [List.mem_map] at hv
  obtain ⟨v0, _, rfl⟩ := hv
  simp

lemma nanFree_submapPix (bl tr : ℤ × ℤ) (m : SMap) (h : NanFree m.data) :
    NanFree (submapPix bl tr m).data := by
  intro row hrow v hv
  unfold submapPix at hrow
  simp only [List.mem_map] at hrow
  obtain ⟨row0, hrow0, rfl⟩ := hrow
  exact h row0 (pySlice_subset _ _ _ _ hrow0) v (pySlice_subset _ _ _ _ hv)

lemma getD_mem {α : Type} (l : List α) (n : ℕ) (d : α) (h : n < l.length) :
    l.getD n d ∈ l := by
  induction l generalizing n with
  | nil => simp at h
  | cons x xs ih =>
    cases n with
    | zero => simp
    | succ k =>
      simp only [List.getD_cons_succ]
      exact List.mem_cons_of_mem _ (ih k (by simpa using h))

lemma sum_of_const (l : List ℚ) (a : ℚ) (h : ∀ y ∈ l, y = a) :
    l.sum = a * (l.length : ℚ) := by
  induction l with
  | nil => simp
  | cons x xs ih =>
    have hx : x = a := h x (List.mem_cons_self _ _)
    have ih' := ih fun y hy => h y (List.mem_cons_of_mem _ hy)
    rw [List.sum_cons, hx, ih', List.length_cons]
    push_cast
    ring

lemma isConstant_mean (l : List ℚ) (hc : isConstant l = true) :
    ∀ x ∈ l, npMean l = x := by
  cases l with
  | nil => simp [isConstant] at hc
  | cons a xs =>
    simp only [isConstant, List.all_eq_true, beq_iff_eq] at hc
    have hall : ∀ y ∈ a :: xs, y = a := by
      intro y hy
      rcases List.mem_cons.mp hy with h | h
      · exact h
      · exact hc y h
    intro x hx
    rw [hall x hx]
    unfold npMean
    rw [sum_of_const _ a hall]
    have hn : (((a :: xs).length : ℕ) : ℚ) ≠ 0 :=
      Nat.cast_ne_zero.mpr (List.length_cons a xs ▸ Nat.succ_ne_zero xs.length)
    rw [mul_div_assoc, div_self hn, mul_one]

lemma clampX_bounds (ps1 L i : ℕ) (h : ps1 ≤ L) :
    (ps1 : ℤ) / 2 ≤ clampX ps1 L i ∧ clampX ps1 L i ≤ (L : ℤ) - (ps1 : ℤ) / 2 := by
  unfold clampX
  omega

lemma patchCall_random (useMax : Bool) (smooth : List (List ℚ) → List (List ℚ))
    (ps : ℕ × ℕ) (idx : ℕ) (rs : ℚ) (d : PatchDraws) (data : List (List (List ℚ)))
    (h1 : ps.1 ≤ shape1 data) (h2 : ps.2 ≤ shape2 data) (hr : d.r ≤ rs) :
    patchCall useMax smooth ps idx rs d data = randomResult ps d data := by
  unfold patchCall patchSelect randomResult
  rw [if_neg (by omega), if_neg (by omega), if_pos hr]

lemma patchCall_extremum (useMax : Bool) (smooth : List (List ℚ) → List (List ℚ))
    (ps : ℕ × ℕ) (idx : ℕ) (rs : ℚ) (d : PatchDraws) (data : List (List (List ℚ)))
    (h1 : ps.1 ≤ shape1 data) (h2 : ps.2 ≤ shape2 data) (hr : rs < d.r) :
    patchCall useMax smooth ps idx rs d data =
      extremumResult ps idx
        ((argwhereEq (smooth (data.getD idx []))
          (if useMax then nanmax (smooth (data.getD idx []))
            else nanmin (smooth (data.getD idx [])))).getD d.tie (0, 0))
        smooth data := by
  unfold patchCall patchSelect extremumResult clampX
  rw [if_neg (by omega), if_neg (by omega), if_neg (not_le.mpr hr)]

lemma extremumResult_ok_dims (ps : ℕ × ℕ) (idx : ℕ) (ij : ℕ × ℕ)
    (smooth : List (List ℚ) → List (List ℚ)) (data : List (List (List ℚ))) (R C : ℕ)
    (hch : ∀ ch ∈ data, ch.length = R ∧ ∀ row ∈ ch, row.length = C)
    (hsmR : (smooth (data.getD idx [])).length = R)
    (hsmC : ((smooth (data.getD idx [])).getD 0 []).length = C)
    (hp1 : ps.1 ≤ R) (hp2 : ps.2 ≤ C) (he1 : ps.1 % 2 = 0) (he2 : ps.2 % 2 = 0) :
    ∀ p, extremumResult ps idx ij smooth data = Except.ok p →
      ∀ ch ∈ p, ch.length = ps.1 ∧ ∀ row ∈ ch, row.length = ps.2 := by
  intro p heq
  simp only [extremumResult] at heq
  rw [hsmR, hsmC] at heq
  obtain ⟨hb1, hb2⟩ := clampX_bounds ps.1 R ij.1 hp1
  obtain ⟨hb3, hb4⟩ := clampX_bounds ps.2 C ij.2 hp2
  have hceil1 : ((ps.1 : ℤ) + 1) / 2 = (ps.1 : ℤ) / 2 := by omega
  have hceil2 : ((ps.2 : ℤ) + 1) / 2 = (ps.2 : ℤ) / 2 := by omega
  split at heq
  · exact absurd heq (by simp)
  · simp only [Except.ok.injEq] at heq
    subst heq
    intro ch' hch'
    simp only [slice3, List.mem_map] at hch'
    obtain ⟨ch, hchm, rfl⟩ := hch'
    obtain ⟨hchR, hchrows⟩ := hch ch hchm
    constructor
    · rw [List.length_map, hceil1,
        pySlice_length ch _ _ (by omega) (by omega) (by rw [hchR]; omega)]
      omega
    · intro row' hrow'
      simp only [List.mem_map] at hrow'
      obtain ⟨row, hrowm, rfl⟩ := hrow'
      have hrowC := hchrows row (pySlice_subset _ _ _ _ hrowm)
      rw [hceil2, pySlice_length row _ _ (by omega) (by omega) (by rw [hrowC]; omega)]
      omega

/-- C3 (counterexample): the spec's example passes the string "none" as
the calibration mode, but the code only recognizes Python `None`; the
string "none" falls through to the unrecognized-method error, so no
pass-through happens. -/
theorem C3_counterexample :
    correct_degregation [] (fun m => m) mapA (Option.some "none") =
      Except.error "Unrecognized methodMust be 'auto' or 'aiapy'. User input: none" := by
  rfl

/-- C3 (amended): with the null mode (Python `None`, the value the code's
`elif method is None` branch accepts) the calibration lookup touches no
table — the result does not depend on the table or on the aiapy
collaborator — and returns the input data with NaN replaced by 0, divided
by the exposure-time header value, cast to 32-bit float (value-preserving
here), with all header fields unchanged.  This holds for every map, in
particular for wavelength 171. -/
theorem C3_mode_none_passthrough :
    ∀ (tbl : List (ℤ × (ℕ → ℚ))) (aia : SMap → SMap) (m : SMap),
      correct_degregation tbl aia m Option.none =
        Except.ok { m with data := m.data.map (List.map fun v => qdivF (nanToNum v) m.exptime) } := by
  intro tbl aia m
  rfl

/-- C8 (counterexample): for the unrecognized mode "foo" the code does
raise, and the raise happens before any data change (the error does not
depend on the table, the collaborator or the map), but the message names
only 'auto' and 'aiapy': the third accepted mode — the null value, which
the same call accepts — is not named ("None"/"none" does not occur in the
message), so the message does not name the allowed values. -/
theorem C8_counterexample :
    correct_degregation [] (fun m => m) mapA (Option.some "foo") =
      Except.error "Unrecognized methodMust be 'auto' or 'aiapy'. User input: foo" ∧
    occursIn ("None".toList)
      ("Unrecognized methodMust be 'auto' or 'aiapy'. User input: foo".toList) = false ∧
    occursIn ("none".toList)
      ("Unrecognized methodMust be 'auto' or 'aiapy'. User input: foo".toList) = false ∧
    correct_degregation [] (fun m => m) mapA Option.none =
      Except.ok ⟨[[FV.fin 3]], 1, 1, 1, 1, 171, 0⟩ := by
  refine ⟨rfl, by decide, by decide, ?_⟩
  unfold correct_degregation correct_degregation_branch
  rw [if_neg (by simp), if_neg (by simp), if_pos rfl]
  norm_num [mapA, qdivF, nanToNum]

/-- C8 (amended): every mode string other than "auto" and "aiapy" makes
`correct_degregation` fail with a `ValueError` whose message names the
modes 'auto' and 'aiapy' (but not the accepted null mode); the error does
not depend on the calibration table, the aiapy collaborator or the map,
so no table lookup or data modification happens before the raise. -/
theorem C8_unrecognized_mode (tbl : List (ℤ × (ℕ → ℚ))) (aia : SMap → SMap)
    (m : SMap) (s : String) (h1 : s ≠ "auto") (h2 : s ≠ "aiapy") :
    correct_degregation tbl aia m (Option.some s) =
      Except.error ("Unrecognized method" ++ ("Must be 'auto' or 'aiapy'. User input: " ++ s)) ∧
    occursIn ("'auto'".toList) (unrecognizedMsg (Option.some s)).toList = true ∧
    occursIn ("'aiapy'".toList) (unrecognizedMsg (Option.some s)).toList = true := by
  have hsplit : (unrecognizedMsg (Option.some s)).toList
      = "Unrecognized method".toList
        ++ ("Must be 'auto' or 'aiapy'. User input: ".toList ++ s.toList) := by
    simp [unrecognizedMsg, String.toList, String.data_append]
  refine ⟨?_, ?_, ?_⟩
  · unfold correct_degregation correct_degregation_branch
    rw [if_neg (by simpa using h1), if_neg (by simpa using h2), if_neg (by simp)]
    rfl
  · rw [hsplit]
    exact occursIn_append_right _ _ _ (occursIn_append_left _ _ _ (by decide))
  · rw [hsplit]
    exact occursIn_append_right _ _ _ (occursIn_append_left _ _ _ (by decide))

/-- C5 (counterexample): on the constant array `[0, 0]` the two quantiles
coincide, the source expression divides `0 / 0`, and both output elements
are NaN — not values within `[-1, 1]`. -/
theorem C5_counterexample :
    MinMaxQuantileNormalizeEditor_call [0, 0] = [FV.nan, FV.nan] ∧
    ∀ q : ℚ, FV.nan ≠ FV.fin q := by
  constructor
  · norm_num [MinMaxQuantileNormalizeEditor_call, npQuantile, sortAsc, insertAsc,
      List.getD, qdivF, FV.mulq, FV.subq, FV.clip]
  · intro q h
    exact FV.noConfusion h

/-- C5 (amended): whenever the 0.1st and 99.9th percentiles differ, every
element of `MinMaxQuantileNormalizeEditor.call` is a finite value in
`[-1, 1]` (when they coincide, the division by zero produces NaN or
clipped infinities instead). -/
theorem C5_minmax_quantile_range (data : List ℚ)
    (hq : npQuantile data (1 / 1000) ≠ npQuantile data (999 / 1000)) :
    ∀ v ∈ MinMaxQuantileNormalizeEditor_call data,
      ∃ q : ℚ, v = FV.fin q ∧ -1 ≤ q ∧ q ≤ 1 := by
  intro v hv
  unfold MinMaxQuantileNormalizeEditor_call at hv
  simp only [List.mem_map] at hv
  obtain ⟨x, hx, rfl⟩ := hv
  have hb : npQuantile data (999 / 1000) - npQuantile data (1 / 1000) ≠ 0 :=
    sub_ne_zero.mpr (Ne.symm hq)
  simp only [qdivF, if_neg hb, FV.mulq, FV.subq, FV.clip]
  refine ⟨_, rfl, ?_, ?_⟩
  · exact le_min (by norm_num) (le_max_right _ _)
  · exact min_le_left _ _

/-- C5 (witness): the hypotheses of `C5_minmax_quantile_range` hold for
the concrete array `[0, 1, 2]`. -/
theorem C5_witness :
    npQuantile [0, 1, 2] (1 / 1000) ≠ npQuantile [0, 1, 2] (999 / 1000) ∧
    ∀ v ∈ MinMaxQuantileNormalizeEditor_call [0, 1, 2],
      ∃ q : ℚ, v = FV.fin q ∧ -1 ≤ q ∧ q ≤ 1 := by
  have h : npQuantile [0, 1, 2] (1 / 1000) ≠ npQuantile [0, 1, 2] (999 / 1000) := by
    norm_num [npQuantile, sortAsc, insertAsc, List.getD]
  exact ⟨h, C5_minmax_quantile_range [0, 1, 2] h⟩

/-- C8 (witness): the amended theorem applied to the concrete mode
string "foo". -/
theorem C8_witness :
    correct_degregation [] (fun mm => mm) mapB (Option.some "foo") =
      Except.error ("Unrecognized method" ++ ("Must be 'auto' or 'aiapy'. User input: " ++ "foo")) ∧
    occursIn ("'auto'".toList) (unrecognizedMsg (Option.some "foo")).toList = true ∧
    occursIn ("'aiapy'".toList) (unrecognizedMsg (Option.some "foo")).toList = true :=
  C8_unrecognized_mode [] (fun mm => mm) mapB "foo" (by decide) (by decide)

/-- C9: `Editor.convert` returns the `call` result's data part, and the
returned keyword mapping holds exactly: every addition the stage
returned, and on every other key the incoming value; a bare (non-tuple)
result leaves the mapping untouched. -/
theorem C9_convert_merges {D K V : Type} (call : D → (K → Option V) → CallResult D K V)
    (data : D) (kwargs : K → Option V) :
    (Editor_convert call data kwargs).1 =
      (match call data kwargs with
       | CallResult.plain d => d
       | CallResult.tup d _ => d) ∧
    ∀ k, (Editor_convert call data kwargs).2 k =
      (match call data kwargs with
       | CallResult.plain _ => kwargs k
       | CallResult.tup _ adds =>
           match adds k with
           | Option.some v => Option.some v
           | Option.none => kwargs k) := by
  unfold Editor_convert
  cases call data kwargs with
  | plain d => exact ⟨rfl, fun k => rfl⟩
  | tup d adds => exact ⟨rfl, fun k => rfl⟩

/-- C10: the function `normalize_radius` of scale.py (with its helper
`_crop_resolution`) and the method `NormalizeRadiusEditor.call` of
editors.py compute the same output map — same data array and same updated
`r_sun` header — for every input map, resolution, padding factor, crop
flag and external rotate / world-coordinate-submap collaborator. -/
theorem C10_normalize_radius_refines :
    ∀ (rotate submapArc : ℚ → SMap → SMap) (res : ℕ) (pf : ℚ) (crop : Bool) (m : SMap),
      NormalizeRadiusEditor_call rotate submapArc res pf crop m =
        normalize_radius rotate submapArc res pf crop m := by
  intro rotate submapArc res pf crop m
  rfl

/-- C4 (counterexample): the pixel-exact crop pairs the row padding
(`pad_x`, from `shape[0]`) with the x axis (columns) of the pixel submap
and vice versa, so on a non-square intermediate array the crop truncates:
with identity rotate/arc-submap collaborators, a 4 × 2 input (both
dimensions at least the requested resolution 2) yields a 2 × 1 array, not
2 × 2. -/
theorem C4_counterexample :
    (NormalizeRadiusEditor_call (fun _ mm => mm) (fun _ mm => mm) 2 0 true mapC).data
      = [[FV.fin 2], [FV.fin 4]] ∧
    mapC.data.length = 4 ∧ (∀ row ∈ mapC.data, row.length = 2) ∧
    ¬ Rect2 [[FV.fin 2], [FV.fin 4]] 2 2 := by
  refine ⟨?_, rfl, ?_, ?_⟩
  · norm_num [NormalizeRadiusEditor_call, nanToNumData, nanToNum, submapPix,
      pySlice, pyBound, Int.fdiv, mapC, List.getD]
    decide
  · intro row hrow
    simp only [mapC] at hrow
    fin_cases hrow <;> rfl
  · intro h
    have := h.2 [FV.fin 2] (List.mem_cons_self _ _)
    simp at this

/-- C4 (amended): when the array entering the pixel-exact crop (the
output of the arcsecond submap) is square of side at least the requested
resolution, both `_crop_resolution` and the crop branch of
`NormalizeRadiusEditor.call` return exactly `resolution × resolution`
pixels; on non-square intermediates the paired-swapped paddings can
truncate the result. -/
theorem C4_crop_exact_resolution :
    (∀ (submapArc : ℚ → SMap → SMap) (res : ℕ) (m : SMap) (S : ℕ),
        Rect2 ((submapArc (((res : ℚ) / 2) * m.cdelt1) m).data) S S → res ≤ S →
        Rect2 ((_crop_resolution submapArc res m).data) res res) ∧
    (∀ (rotate submapArc : ℚ → SMap → SMap) (res : ℕ) (pf : ℚ) (m : SMap) (S : ℕ),
        (Rect2 ((submapArc
            (((res : ℚ) / 2) *
              (rotate ((res : ℚ) / (2 * ((1 + pf) * (m.rsun_obs / m.cdelt1))))
                { m with data := nanToNumData m.data }).cdelt1)
            (rotate ((res : ℚ) / (2 * ((1 + pf) * (m.rsun_obs / m.cdelt1))))
              { m with data := nanToNumData m.data })).data) S S) → res ≤ S →
        Rect2 ((NormalizeRadiusEditor_call rotate submapArc res pf true m).data) res res) := by
  constructor
  · intro submapArc res m S h hres
    exact submap_crop_dims _ res S h hres
  · intro rotate submapArc res pf m S h hres
    exact submap_crop_dims _ res S h hres

/-- C4 (witness): with identity collaborators and the square 3 × 3 map,
requesting resolution 2 indeed returns a 2 × 2 array. -/
theorem C4_witness :
    Rect2 ((_crop_resolution (fun _ mm => mm) 2 mapB).data) 2 2 := by
  refine C4_crop_exact_resolution.1 (fun _ mm => mm) 2 mapB 3 ?_ (by norm_num)
  constructor
  · rfl
  · intro row hrow
    simp only [mapB] at hrow
    fin_cases hrow <;> rfl

/-- C6 (counterexample): an input map holding a NaN pixel and a zero
exposure time: the NaN is replaced by 0, but the division by the zero
exposure time then produces `0 / 0 = NaN` in the final output array, so
the output of the calibration lookup is not NaN-free for every input
map. -/
theorem C6_counterexample :
    correct_degregation [] (fun mm => mm) mapN Option.none =
      Except.ok ⟨[[FV.nan]], 1, 1, 1, 0, 171, 0⟩ ∧
    ¬ NanFree [[FV.nan]] := by
  constructor
  · unfold correct_degregation correct_degregation_branch
    rw [if_neg (by simp), if_neg (by simp), if_pos rfl]
    norm_num [mapN, qdivF, nanToNum]
  · intro h
    exact h [FV.nan] (List.mem_cons_self _ _) FV.nan (List.mem_cons_self _ _) rfl

/-- C6 (amended): the calibration lookup output is NaN-free for every
map whose exposure time is nonzero (and whose aiapy collaborator
preserves the exposure-time header), whatever NaNs the input data holds;
and the radius normalization output is NaN-free for every input map,
provided the external rotate and arcsecond-submap collaborators preserve
NaN-freeness — the `nan_to_num` substitution happens before they run. -/
theorem C6_no_nan_propagation :
    (∀ (tbl : List (ℤ × (ℕ → ℚ))) (aia : SMap → SMap) (m : SMap)
        (method : Option String) (m' : SMap),
        m.exptime ≠ 0 → (∀ mm, (aia mm).exptime = mm.exptime) →
        correct_degregation tbl aia m method = Except.ok m' → NanFree m'.data) ∧
    (∀ (rotate submapArc : ℚ → SMap → SMap) (res : ℕ) (pf : ℚ) (crop : Bool) (m : SMap),
        (∀ sf mm, NanFree mm.data → NanFree (rotate sf mm).data) →
        (∀ af mm, NanFree mm.data → NanFree (submapArc af mm).data) →
        NanFree (normalize_radius rotate submapArc res pf crop m).data) := by
  constructor
  · intro tbl aia m method m' hexp haia heq
    unfold correct_degregation at heq
    cases hB : correct_degregation_branch tbl aia m method with
    | error e =>
      rw [hB] at heq
      exact absurd heq (by simp)
    | ok mm =>
      rw [hB] at heq
      simp only [Except.ok.injEq] at heq
      have hmm : mm.exptime = m.exptime := by
        unfold correct_degregation_branch at hB
        by_cases h1 : method = Option.some "auto"
        · rw [if_pos h1] at hB
          simp only [Except.ok.injEq] at hB
          rw [← hB]
        · rw [if_neg h1] at hB
          by_cases h2 : method = Option.some "aiapy"
          · rw [if_pos h2] at hB
            simp only [Except.ok.injEq] at hB
            rw [← hB]
            exact haia m
          · rw [if_neg h2] at hB
            by_cases h3 : method = Option.none
            · rw [if_pos h3] at hB
              simp only [Except.ok.injEq] at hB
              rw [← hB]
            · rw [if_neg h3] at hB
              exact absurd hB (by simp)
      rw [← heq]
      exact nanFree_divExp mm.data mm.exptime (by rw [hmm]; exact hexp)
  · intro rotate submapArc res pf crop m hrot harc
    have h1 : NanFree (rotate ((res : ℚ) / (2 * ((1 + pf) * (m.rsun_obs / m.cdelt1))))
        { m with data := nanToNumData m.data }).data :=
      hrot _ _ (nanFree_nanToNumData m.data)
    cases crop with
    | false => exact h1
    | true =>
      show NanFree (submapPix _ _ _).data
      exact nanFree_submapPix _ _ _ (harc _ _ h1)

/-- C6 (witness): the amended theorem applies to the concrete map `mapA`
(exposure time 1) under the null calibration mode, and to `mapA` under
identity rotate / submap collaborators for the radius normalization. -/
theorem C6_witness :
    NanFree (([[FV.fin 3]] : List (List FV))) ∧
    NanFree (normalize_radius (fun _ mm => mm) (fun _ mm => mm) 2 0 true mapA).data := by
  constructor
  · refine C6_no_nan_propagation.1 [] (fun mm => mm) mapA Option.none
      ⟨[[FV.fin 3]], 1, 1, 1, 1, 171, 0⟩ (by norm_num [mapA]) (fun mm => rfl) ?_
    unfold correct_degregation correct_degregation_branch
    rw [if_neg (by simp), if_neg (by simp), if_pos rfl]
    norm_num [mapA, qdivF, nanToNum]
  · exact C6_no_nan_propagation.2 (fun _ mm => mm) (fun _ mm => mm) 2 0 true mapA
      (fun _ _ h => h) (fun _ _ h => h)

/-- C1 (counterexample): with `random_selection = 0` and a draw of
exactly 0 — a possible outcome of `random.random()`, whose range is
`[0, 1)` — the branch condition `random.random() <= random_selection`
holds and the random branch is taken: on `data9` the call returns the
offset-(0,0) patch, which does not contain the value 9 although the
smoothed (identity-smoothed) channel's unique maximum 9 sits at (2, 2);
so the editor does not "always" take the extremum branch at
`random_selection = 0`. -/
theorem C1_counterexample :
    BrightestPixelPatchEditor_call (fun mm => mm) (2, 2) 0 0 ⟨0, 0, 0, 0⟩ data9 =
      Except.ok [[[1, 2], [4, 5]]] ∧
    argwhereEq (data9.getD 0 []) (nanmax (data9.getD 0 [])) = [(2, 2)] ∧
    (9 : ℚ) ∉ flat3 [[[1, 2], [4, 5]]] := by
  refine ⟨by decide, by decide, by decide⟩

/-- C1 (amended): the random branch is taken exactly when the uniform
draw is at most `random_selection` (so with `random_selection = 1` every
draw from `[0, 1)` takes it, and with `random_selection = 0` the
extremum branch is taken whenever the draw is positive — a draw of
exactly 0 still takes the random branch).  Random branch: both editors
return the patch at the drawn offset.  Extremum branch: both editors
return the patch centered — after clamping each coordinate within
`[ps // 2, shape - ps // 2]` — on a pixel tied for the global maximum
(Brightest) resp. minimum (Darkest) of the smoothed selected channel,
the tie broken by the drawn index. -/
theorem C1_branch_selection :
    ∀ (smooth : List (List ℚ) → List (List ℚ)) (ps : ℕ × ℕ) (idx : ℕ) (rs : ℚ)
      (d : PatchDraws) (data : List (List (List ℚ))),
      ps.1 ≤ shape1 data → ps.2 ≤ shape2 data →
      (smooth (data.getD idx [])).length = shape1 data →
      ((smooth (data.getD idx [])).getD 0 []).length = shape2 data →
      ((d.r ≤ rs →
          BrightestPixelPatchEditor_call smooth ps idx rs d data = randomResult ps d data ∧
          DarkestPixelPatchEditor_call smooth ps idx rs d data = randomResult ps d data) ∧
       (rs < d.r →
          (d.tie < (argwhereEq (smooth (data.getD idx []))
              (nanmax (smooth (data.getD idx [])))).length →
            ∃ ij : ℕ × ℕ,
              ij ∈ argwhereEq (smooth (data.getD idx [])) (nanmax (smooth (data.getD idx []))) ∧
              (ps.1 : ℤ) / 2 ≤ clampX ps.1 (smooth (data.getD idx [])).length ij.1 ∧
              clampX ps.1 (smooth (data.getD idx [])).length ij.1
                ≤ (shape1 data : ℤ) - (ps.1 : ℤ) / 2 ∧
              (ps.2 : ℤ) / 2 ≤ clampX ps.2 ((smooth (data.getD idx [])).getD 0 []).length ij.2 ∧
              clampX ps.2 ((smooth (data.getD idx [])).getD 0 []).length ij.2
                ≤ (shape2 data : ℤ) - (ps.2 : ℤ) / 2 ∧
              BrightestPixelPatchEditor_call smooth ps idx rs d data =
                extremumResult ps idx ij smooth data) ∧
          (d.tie < (argwhereEq (smooth (data.getD idx []))
              (nanmin (smooth (data.getD idx [])))).length →
            ∃ ij : ℕ × ℕ,
              ij ∈ argwhereEq (smooth (data.getD idx [])) (nanmin (smooth (data.getD idx []))) ∧
              (ps.1 : ℤ) / 2 ≤ clampX ps.1 (smooth (data.getD idx [])).length ij.1 ∧
              clampX ps.1 (smooth (data.getD idx [])).length ij.1
                ≤ (shape1 data : ℤ) - (ps.1 : ℤ) / 2 ∧
              (ps.2 : ℤ) / 2 ≤ clampX ps.2 ((smooth (data.getD idx [])).getD 0 []).length ij.2 ∧
              clampX ps.2 ((smooth (data.getD idx [])).getD 0 []).length ij.2
                ≤ (shape2 data : ℤ) - (ps.2 : ℤ) / 2 ∧
              DarkestPixelPatchEditor_call smooth ps idx rs d data =
                extremumResult ps idx ij smooth data))) := by
  intro smooth ps idx rs d data h1 h2 hsmR hsmC
  constructor
  · intro hr
    exact ⟨patchCall_random true smooth ps idx rs d data h1 h2 hr,
      patchCall_random false smooth ps idx rs d data h1 h2 hr⟩
  · intro hr
    constructor
    · intro htie
      refine ⟨(argwhereEq (smooth (data.getD idx []))
          (nanmax (smooth (data.getD idx [])))).getD d.tie (0, 0),
        getD_mem _ _ _ htie, ?_, ?_, ?_, ?_, ?_⟩
      · exact (clampX_bounds ps.1 _ _ (by rw [hsmR]; exact h1)).1
      · rw [← hsmR]
        exact (clampX_bounds ps.1 _ _ (by rw [hsmR]; exact h1)).2
      · exact (clampX_bounds ps.2 _ _ (by rw [hsmC]; exact h2)).1
      · rw [← hsmC]
        exact (clampX_bounds ps.2 _ _ (by rw [hsmC]; exact h2)).2
      · exact patchCall_extremum true smooth ps idx rs d data h1 h2 hr
    · intro htie
      refine ⟨(argwhereEq (smooth (data.getD idx []))
          (nanmin (smooth (data.getD idx [])))).getD d.tie (0, 0),
        getD_mem _ _ _ htie, ?_, ?_, ?_, ?_, ?_⟩
      · exact (clampX_bounds ps.1 _ _ (by rw [hsmR]; exact h1)).1
      · rw [← hsmR]
        exact (clampX_bounds ps.1 _ _ (by rw [hsmR]; exact h1)).2
      · exact (clampX_bounds ps.2 _ _ (by rw [hsmC]; exact h2)).1
      · rw [← hsmC]
        exact (clampX_bounds ps.2 _ _ (by rw [hsmC]; exact h2)).2
      · exact patchCall_extremum false smooth ps idx rs d data h1 h2 hr

/-- C1 (witness): on `data9` with `random_selection = 0` and a positive
draw, the brightest-pixel editor takes the extremum branch at a pixel
tied for the smoothed maximum. -/
theorem C1_witness :
    (0 : ℚ) < 1 ∧
    (0 < (argwhereEq (data9.getD 0 []) (nanmax (data9.getD 0 []))).length ∧
    ∃ ij : ℕ × ℕ,
      ij ∈ argwhereEq ((fun mm => mm) (data9.getD 0 []))
        (nanmax ((fun mm => mm) (data9.getD 0 []))) ∧
      ((2, 2) : ℕ × ℕ).1 / 2 ≤ clampX (2, 2).1 ((fun mm => mm) (data9.getD 0 [])).length ij.1 ∧
      clampX (2, 2).1 ((fun mm => mm) (data9.getD 0 [])).length ij.1
        ≤ (shape1 data9 : ℤ) - ((2 : ℕ) : ℤ) / 2 ∧
      ((2 : ℕ) : ℤ) / 2 ≤ clampX (2, 2).2 (((fun mm => mm) (data9.getD 0 [])).getD 0 []).length ij.2 ∧
      clampX (2, 2).2 (((fun mm => mm) (data9.getD 0 [])).getD 0 []).length ij.2
        ≤ (shape2 data9 : ℤ) - ((2 : ℕ) : ℤ) / 2 ∧
      BrightestPixelPatchEditor_call (fun mm => mm) (2, 2) 0 0 ⟨1, 0, 0, 0⟩ data9 =
        extremumResult (2, 2) 0 ij (fun mm => mm) data9) := by
  refine ⟨by norm_num, by decide, ?_⟩
  exact ((C1_branch_selection (fun mm => mm) (2, 2) 0 0 ⟨1, 0, 0, 0⟩ data9
    (by decide) (by decide) rfl rfl).2 (by norm_num)).1 (by decide)

/-- C2 (counterexample): with an odd patch shape the upper clamp
`shape - ps // 2` leaves room for only `ceil(ps/2) - 1` pixels above the
center, and the numpy slice silently truncates: requesting a 3 × 3 patch
from the 3 × 3 channel of `data9` (extremum at the corner (2, 2)) returns
a 2 × 2 patch. -/
theorem C2_counterexample :
    BrightestPixelPatchEditor_call (fun mm => mm) (3, 3) 0 0 ⟨1, 0, 0, 0⟩ data9 =
      Except.ok [[[5, 6], [8, 9]]] ∧
    ([[(5 : ℚ), 6], [8, 9]] : List (List ℚ)).length = 2 ∧ (2 : ℕ) ≠ 3 := by
  refine ⟨by decide, rfl, by decide⟩

/-- C2 (amended): in the extremum branch, when both patch dimensions are
even the clamping guarantees the extraction indices lie within bounds and
the returned patch has spatial shape exactly `patch_shape`, for both
editors; for odd dimensions the slice can be truncated (see the
counterexample). -/
theorem C2_even_patch_exact_shape :
    ∀ (smooth : List (List ℚ) → List (List ℚ)) (ps : ℕ × ℕ) (idx : ℕ) (rs : ℚ)
      (d : PatchDraws) (data : List (List (List ℚ))) (R C : ℕ),
      (∀ ch ∈ data, ch.length = R ∧ ∀ row ∈ ch, row.length = C) →
      (smooth (data.getD idx [])).length = R →
      ((smooth (data.getD idx [])).getD 0 []).length = C →
      ps.1 ≤ shape1 data → ps.2 ≤ shape2 data → ps.1 ≤ R → ps.2 ≤ C →
      ps.1 % 2 = 0 → ps.2 % 2 = 0 → rs < d.r →
      (∀ p, BrightestPixelPatchEditor_call smooth ps idx rs d data = Except.ok p →
        ∀ ch ∈ p, ch.length = ps.1 ∧ ∀ row ∈ ch, row.length = ps.2) ∧
      (∀ p, DarkestPixelPatchEditor_call smooth ps idx rs d data = Except.ok p →
        ∀ ch ∈ p, ch.length = ps.1 ∧ ∀ row ∈ ch, row.length = ps.2) := by
  intro smooth ps idx rs d data R C hch hsmR hsmC hs1 hs2 hp1 hp2 he1 he2 hr
  constructor
  · intro p hp
    unfold BrightestPixelPatchEditor_call at hp
    rw [patchCall_extremum true smooth ps idx rs d data hs1 hs2 hr] at hp
    exact extremumResult_ok_dims ps idx _ smooth data R C hch hsmR hsmC hp1 hp2 he1 he2 p hp
  · intro p hp
    unfold DarkestPixelPatchEditor_call at hp
    rw [patchCall_extremum false smooth ps idx rs d data hs1 hs2 hr] at hp
    exact extremumResult_ok_dims ps idx _ smooth data R C hch hsmR hsmC hp1 hp2 he1 he2 p hp

/-- C2 (witness): a 2 × 2 request on `data9` in the extremum branch
succeeds and the returned patch has exactly 2 × 2 pixels. -/
theorem C2_witness :
    BrightestPixelPatchEditor_call (fun mm => mm) (2, 2) 0 0 ⟨1, 0, 0, 0⟩ data9 =
      Except.ok [[[5, 6], [8, 9]]] ∧
    (∀ ch ∈ ([[[(5 : ℚ), 6], [8, 9]]] : List (List (List ℚ))),
      ch.length = 2 ∧ ∀ row ∈ ch, row.length = 2) := by
  have h := (C2_even_patch_exact_shape (fun mm => mm) (2, 2) 0 0 ⟨1, 0, 0, 0⟩ data9 3 3
    (by decide) rfl rfl (by decide) (by decide) (by decide) (by decide)
    (by decide) (by decide) (by norm_num)).1
  exact ⟨by decide, h [[[5, 6], [8, 9]]] (by decide)⟩

/-- C7: whenever the selected patch is constant (a nonempty patch of
standard deviation zero), both editors fail with the invalid-patch error
rather than returning the patch, and the mean value the message carries
equals the constant value of every patch entry. -/
theorem C7_zero_variance_error :
    ∀ (smooth : List (List ℚ) → List (List ℚ)) (ps : ℕ × ℕ) (idx : ℕ) (rs : ℚ)
      (d : PatchDraws) (data : List (List (List ℚ))),
      ps.1 ≤ shape1 data → ps.2 ≤ shape2 data →
      ((isConstant (flat3 (patchSelect true smooth ps idx rs d data)) = true →
        BrightestPixelPatchEditor_call smooth ps idx rs d data =
          Except.error (invalidPatchMsg (patchSelect true smooth ps idx rs d data)) ∧
        ∀ v ∈ flat3 (patchSelect true smooth ps idx rs d data),
          npMean (flat3 (patchSelect true smooth ps idx rs d data)) = v) ∧
       (isConstant (flat3 (patchSelect false smooth ps idx rs d data)) = true →
        DarkestPixelPatchEditor_call smooth ps idx rs d data =
          Except.error (invalidPatchMsg (patchSelect false smooth ps idx rs d data)) ∧
        ∀ v ∈ flat3 (patchSelect false smooth ps idx rs d data),
          npMean (flat3 (patchSelect false smooth ps idx rs d data)) = v)) := by
  intro smooth ps idx rs d data h1 h2
  constructor
  · intro hcB
    constructor
    · unfold BrightestPixelPatchEditor_call patchCall
      rw [if_neg (by omega), if_neg (by omega), if_pos hcB]
    · exact isConstant_mean _ hcB
  · intro hcD
    constructor
    · unfold DarkestPixelPatchEditor_call patchCall
      rw [if_neg (by omega), if_neg (by omega), if_pos hcD]
    · exact isConstant_mean _ hcD

set_option maxRecDepth 10000 in
/-- C7 (witness): the spec's example — a 2 × 2 patch requested from a
constant-zero 4 × 4 array with `random_selection = 0` (extremum branch,
positive draw) — fails with the zero-variance error on both editors. -/
theorem C7_witness :
    BrightestPixelPatchEditor_call (fun mm => mm) (2, 2) 0 0 ⟨1, 0, 0, 0⟩ zeros4 =
      Except.error
        (invalidPatchMsg (patchSelect true (fun mm => mm) (2, 2) 0 0 ⟨1, 0, 0, 0⟩ zeros4)) ∧
    DarkestPixelPatchEditor_call (fun mm => mm) (2, 2) 0 0 ⟨1, 0, 0, 0⟩ zeros4 =
      Except.error
        (invalidPatchMsg (patchSelect false (fun mm => mm) (2, 2) 0 0 ⟨1, 0, 0, 0⟩ zeros4)) :=
  ⟨((C7_zero_variance_error (fun mm => mm) (2, 2) 0 0 ⟨1, 0, 0, 0⟩ zeros4
      (by decide) (by decide)).1 (by decide)).1,
   ((C7_zero_variance_error (fun mm => mm) (2, 2) 0 0 ⟨1, 0, 0, 0⟩ zeros4
      (by decide) (by decide)).2 (by decide)).1⟩

end HelioTools
